import Mathlib

/-!
Verification of the PDF job-traveler batch renamer (`mainapp.py`).

The program reads uploaded PDF files, calls a hosted document-understanding
model once per file (`prompt_claude`), derives a sanitized new filename from
the extracted fields (`sanitize_filename`), renames the file inside a scoped
temporary directory, appends it to an in-memory ZIP archive, and records one
status entry per input file (`process_pdfs`).  The web-UI layer finally turns
the result list into a display table (`results_data`).

Shallow embedding conventions:

* Bytes are `List Nat`; file names and all record values are `String`.
* A JSON object / Python `dict` is an association list with first-match
  lookup (`alookup`) and in-place update (`dictSet`), mirroring Python dict
  semantics (update keeps the key's position, a new key is appended).
* The temporary directory is an association list from path to bytes
  (`fsSet`, `fsErase`); `Path.rename` is erase-then-set.
* The external world of one API call (file read, transport/auth/service
  outcome, and the JSON-parse result of the response text) is an explicit
  `ApiOutcome` oracle; `prompt_claude` is the program's dispatch over it,
  exactly one call per file and no retry.  `process_pdfs` takes the per-file
  oracle `oc : Nat → ApiOutcome` in place of the live network and API key.
* `time.sleep`, the progress bar and logging have no data effect and are
  not modelled.
-/

abbrev Bytes := List Nat

/-- One uploaded file: its original name and its byte content. -/
structure PDFile where
  name : String
  content : Bytes
  deriving DecidableEq, Repr

/-- A parsed JSON object with string values (Python `dict`),
as an association list with first-match lookup. -/
abbrev ExtractionRecord := List (String × String)

/-- First-match association-list lookup (Python `d[k]` / `k in d`). -/
def alookup {α : Type} : (l : List (String × α)) → (key : String) → Option α
  | [], _ => none
  | p :: r, key => if p.1 = key then some p.2 else alookup r key

/-- Python `d[key] = val` on a dict: update in place if the key is present,
else append the new binding at the end (insertion order is preserved). -/
def dictSet (d : ExtractionRecord) (key val : String) : ExtractionRecord :=
  if (alookup d key).isSome then
    d.map (fun p => if p.1 = key then (key, val) else p)
  else
    d ++ [(key, val)]

/-- The scoped temporary directory: path ↦ bytes. -/
abbrev FS := List (String × Bytes)

/-- Delete a path (used by `fsSet` and for `Path.rename`'s source). -/
def fsErase (fs : FS) (n : String) : FS :=
  fs.filter (fun p => p.1 != n)

/-- Write bytes to a path, overwriting any existing file there. -/
def fsSet (fs : FS) (n : String) (b : Bytes) : FS :=
  (n, b) :: fsErase fs n

/-- The external world of one `prompt_claude` call, as seen by the code's
`try`/`except` structure: reading the upload can raise, the API client call
can raise (transport, authentication or service error), or it returns a
response whose text either fails JSON parsing or parses to a record. -/
inductive ApiOutcome where
  | readError : ApiOutcome
  | apiError : ApiOutcome
  | response : Option ExtractionRecord → ApiOutcome
  deriving DecidableEq

/-- `prompt_claude` (mainapp.py lines 38-106): every failure path returns the
empty record `[]`; a successfully parsed response is returned as-is.  The
function issues exactly one request per call and never retries. -/
def prompt_claude : ApiOutcome → ExtractionRecord
  | .readError => []
  | .apiError => []
  | .response none => []
  | .response (some result) => result

/-- The characters `sanitize_filename` removes (mainapp.py line 111). -/
def invalid_chars : List Char := ['<', '>', ':', '\"', '/', '\\', '|', '?', '*']

/-- Python `filename.replace(char, underscore)` for a one-character pattern:
a character-wise map. -/
def replaceChar (s : String) (c : Char) : String :=
  String.mk (s.data.map (fun x => if x = c then '_' else x))

/-- `sanitize_filename` (mainapp.py lines 108-120): replace each invalid
character by an underscore, then truncate to the first 240 characters when
longer than 240. -/
def sanitize_filename (filename : String) : String :=
  let replaced := invalid_chars.foldl replaceChar filename
  if replaced.length > 240 then String.mk (replaced.data.take 240) else replaced

/-- The three required fields, in the code's fixed order
(mainapp.py line 172). -/
def required_fields : List String := ["Customer", "Part Number", "Description"]

/-- Python `field not in extracted_data or not extracted_data[field]`:
the field is absent, or present with a falsy (empty) string. -/
def fieldMissing (d : ExtractionRecord) (field : String) : Bool :=
  match alookup d field with
  | none => true
  | some v => v == ""

/-- `missing_fields` (mainapp.py line 173): the required fields that are
absent or empty, in the fixed canonical order of `required_fields`. -/
def missingOf (d : ExtractionRecord) : List String :=
  required_fields.filter (fun f => fieldMissing d f)

/-- The in-place substitution loop (mainapp.py lines 178-179): each missing
field is set to the literal `"Unknown"` in the record itself. -/
def filledData (d : ExtractionRecord) : ExtractionRecord :=
  (missingOf d).foldl (fun acc f => dictSet acc f "Unknown") d

/-- `new_filename` (mainapp.py lines 182-184): the composed
`"{Part Number} {Customer} {Description}.pdf"` over the substituted record,
then sanitized. -/
def newNameOf (d : ExtractionRecord) : String :=
  sanitize_filename ((alookup (filledData d) "Part Number").getD "" ++ " " ++
    (alookup (filledData d) "Customer").getD "" ++ " " ++
    (alookup (filledData d) "Description").getD "" ++ ".pdf")

/-- The status string written for a non-empty record (mainapp.py line 195). -/
def statusOf (d : ExtractionRecord) : String :=
  if (missingOf d).isEmpty then "Success"
  else "Partial success (missing: " ++ String.intercalate ", " (missingOf d) ++ ")"

/-- One per-file entry of the results list (`result_info`,
mainapp.py lines 160-164 with the keys set on lines 167, 195-196). -/
structure ResultInfo where
  original_name : String
  extracted_data : ExtractionRecord
  new_name : String
  status : String
  deriving DecidableEq, Repr

/-- The body of the `for` loop of `process_pdfs` for one file
(mainapp.py lines 149-197), given the extraction record the API call
produced: save the upload into the temporary directory, and either record an
error (empty record, lines 166-169) or substitute missing fields, rename the
saved file to the sanitized new name, add the renamed file's bytes to the
zip, and record the status (lines 171-197).  Returns the new directory
state, the optional zip entry, and the `result_info` appended to `results`.
Note that `result_info["extracted_data"]` aliases the mutated dict, so the
stored record is the substituted one. -/
def processOne (extracted_data : ExtractionRecord) (file : PDFile) (fs : FS) :
    FS × Option (String × Bytes) × ResultInfo :=
  let fs1 := fsSet fs file.name file.content
  if extracted_data.isEmpty then
    (fs1, none, ⟨file.name, extracted_data, "", "Error: No data extracted"⟩)
  else
    let missing_fields := required_fields.filter (fun f => fieldMissing extracted_data f)
    let data1 := missing_fields.foldl (fun acc f => dictSet acc f "Unknown") extracted_data
    let new_filename := sanitize_filename ((alookup data1 "Part Number").getD "" ++ " " ++
      (alookup data1 "Customer").getD "" ++ " " ++
      (alookup data1 "Description").getD "" ++ ".pdf")
    let moved := (alookup fs1 file.name).getD []
    let fs2 := fsSet (fsErase fs1 file.name) new_filename moved
    let status := if missing_fields.isEmpty then "Success"
      else "Partial success (missing: " ++ String.intercalate ", " missing_fields ++ ")"
    (fs2, some (new_filename, (alookup fs2 new_filename).getD []),
      ⟨file.name, data1, new_filename, status⟩)

/-- The `for` loop of `process_pdfs` (mainapp.py lines 143-197): files are
processed strictly in input order, threading the temporary directory, and
accumulating zip entries (in write order) and results. -/
def processLoop (oc : Nat → ApiOutcome) : Nat → List PDFile → FS →
    FS × List (String × Bytes) × List ResultInfo
  | _, [], fs => (fs, [], [])
  | i, file :: rest, fs =>
    let step := processOne (prompt_claude (oc i)) file fs
    let tail := processLoop oc (i + 1) rest step.1
    (tail.1, step.2.1.toList ++ tail.2.1, step.2.2 :: tail.2.2)

/-- The sealed output of one batch: the zip archive's entries in write order,
and the ordered per-file results. -/
structure BatchOutput where
  zipEntries : List (String × Bytes)
  results : List ResultInfo
  deriving DecidableEq

/-- `process_pdfs` (mainapp.py lines 122-205): `None` on an empty upload list
(line 124-126), otherwise the loop is run over a fresh temporary directory,
which is released when the batch ends; the zip buffer and results are
returned. -/
def process_pdfs (uploaded_files : List PDFile) (oc : Nat → ApiOutcome) :
    Option BatchOutput :=
  if uploaded_files.isEmpty then none
  else
    let r := processLoop oc 0 uploaded_files []
    some ⟨r.2.1, r.2.2⟩

/-- One row of the displayed result table (mainapp.py lines 287-294). -/
structure DisplayRow where
  original_filename : String
  new_filename : String
  status : String
  customer : String
  part_number : String
  description : String
  deriving DecidableEq, Repr

/-- The row built for one result (mainapp.py lines 287-294):
`result["new_name"] or "N/A"` shows the sentinel when the new name is the
empty string, and each field column is `extracted_data.get(field, "")`. -/
def mkRow (r : ResultInfo) : DisplayRow :=
  ⟨r.original_name,
    if r.new_name = "" then "N/A" else r.new_name,
    r.status,
    (alookup r.extracted_data "Customer").getD "",
    (alookup r.extracted_data "Part Number").getD "",
    (alookup r.extracted_data "Description").getD ""⟩

/-- `results_data` (mainapp.py lines 285-294): the displayed table, one row
per result in order. -/
def results_data (processing_results : List ResultInfo) : List DisplayRow :=
  processing_results.map mkRow

/-- Reading a member from the finished archive by name: `zipfile` resolves a
duplicated entry name to the entry written last (its name index is rebuilt
on each write), so a later entry shadows an earlier one of the same name. -/
def archiveRead (entries : List (String × Bytes)) (n : String) : Option Bytes :=
  ((entries.filter (fun p => p.1 == n)).getLast?).map Prod.snd

/-- The field value used in the composed filename: the extracted value when
present and non-empty, else the literal placeholder `"Unknown"`. -/
def valOr (d : ExtractionRecord) (field : String) : String :=
  if fieldMissing d field then "Unknown" else (alookup d field).getD ""

/-- The pure per-file result (the data content of `processOne`, independent
of the directory state). -/
def fileResult (d : ExtractionRecord) (name : String) : ResultInfo :=
  if d.isEmpty then ⟨name, d, "", "Error: No data extracted"⟩
  else ⟨name, filledData d, newNameOf d, statusOf d⟩

/-- The pure per-file zip entry: none for an empty record, else the renamed
file's bytes under the sanitized new name. -/
def fileEntry (d : ExtractionRecord) (content : Bytes) : Option (String × Bytes) :=
  if d.isEmpty then none else some (newNameOf d, content)

/-- The results accumulated by `processLoop` from index `i` on,
directory-free. -/
def resultsOf (E : Nat → ExtractionRecord) : Nat → List PDFile → List ResultInfo
  | _, [] => []
  | i, file :: rest => fileResult (E i) file.name :: resultsOf E (i + 1) rest

/-- The zip entries accumulated by `processLoop` from index `i` on,
directory-free. -/
def entriesOf (E : Nat → ExtractionRecord) : Nat → List PDFile → List (String × Bytes)
  | _, [] => []
  | i, file :: rest => (fileEntry (E i) file.content).toList ++ entriesOf E (i + 1) rest

/-- The per-index extraction record of a batch run. -/
def extractOf (oc : Nat → ApiOutcome) : Nat → ExtractionRecord :=
  fun i => prompt_claude (oc i)

/-! ## Lemmas about the sanitizer -/

lemma data_mk (l : List Char) : (String.mk l).data = l := rfl

/-- Replacing character by character: a fold of `replaceChar` maps each
character through the chain of single-character replacements. -/
lemma foldl_replaceChar_data (cs : List Char) :
    ∀ s : String, (cs.foldl replaceChar s).data =
      s.data.map (fun x => cs.foldl (fun y c => if y = c then '_' else y) x) := by
  induction cs with
  | nil => intro s; simp
  | cons c cs ih =>
    intro s
    rw [List.foldl_cons, ih, replaceChar, data_mk, List.map_map]
    simp [Function.comp]

/-- When the replacement character is not itself replaced later, the chain of
single-character replacements is one membership test. -/
lemma chain_replace (cs : List Char) (hund : '_' ∉ cs) :
    ∀ x : Char, cs.foldl (fun y c => if y = c then '_' else y) x =
      if x ∈ cs then '_' else x := by
  induction cs with
  | nil => intro x; simp
  | cons c cs ih =>
    intro x
    have hund1 : '_' ∉ cs := fun h => hund (List.mem_cons_of_mem c h)
    rw [List.foldl_cons]
    by_cases hx : x = c
    · subst hx
      simp only [if_pos rfl, ih hund1]
      simp [List.mem_cons]
    · simp only [if_neg hx, ih hund1, List.mem_cons]
      have : ¬(x = c ∨ x ∈ cs) ↔ ¬(x ∈ cs) := by tauto
      by_cases hm : x ∈ cs <;> simp [hm, hx]

/-- What one character becomes under the full replacement pass. -/
def sanChar (x : Char) : Char := if x ∈ invalid_chars then '_' else x

lemma sanitize_replaced_data (s : String) :
    (invalid_chars.foldl replaceChar s).data = s.data.map sanChar := by
  rw [foldl_replaceChar_data]
  have h : (fun x => invalid_chars.foldl (fun y c => if y = c then '_' else y) x) = sanChar :=
    funext (chain_replace invalid_chars (by decide))
  rw [h]

lemma mem_sanitize_data (s : String) (c : Char) (hc : c ∈ (sanitize_filename s).data) :
    c ∈ s.data.map sanChar := by
  simp only [sanitize_filename] at hc
  split at hc
  · rw [data_mk] at hc
    exact List.mem_of_mem_take ((sanitize_replaced_data s) ▸ hc)
  · exact (sanitize_replaced_data s) ▸ hc

/-- No character of a sanitized name is an invalid character. -/
lemma sanitize_no_invalid (s : String) (c : Char) (hc : c ∈ (sanitize_filename s).data) :
    c ∉ invalid_chars := by
  rcases List.mem_map.1 (mem_sanitize_data s c hc) with ⟨x, _, rfl⟩
  unfold sanChar
  split
  · decide
  · assumption

/-- A sanitized name has at most 240 characters. -/
lemma sanitize_length (s : String) : (sanitize_filename s).length ≤ 240 := by
  simp only [sanitize_filename]
  split
  · show (String.mk _).data.length ≤ 240
    rw [data_mk, List.length_take]
    omega
  · omega

/-- C5: `sanitize_filename` output never contains any of the characters
`< > : " / \ | ? *`, and its length is at most 240. -/
theorem c5_sanitize_safe (name : String) :
    (∀ c ∈ (sanitize_filename name).data, c ∉ invalid_chars) ∧
    (sanitize_filename name).length ≤ 240 :=
  ⟨fun c hc => sanitize_no_invalid name c hc, sanitize_length name⟩

/-- Witness for C5 at the spec's own scenario string `A/C:Unit`. -/
theorem c5_sanitize_safe_witness :
    (∀ c ∈ (sanitize_filename "A/C:Unit").data, c ∉ invalid_chars) ∧
    (sanitize_filename "A/C:Unit").length ≤ 240 :=
  c5_sanitize_safe "A/C:Unit"

/-- A string the replacement pass fixes and that is short enough is a fixed
point of the sanitizer. -/
lemma sanitize_eq_self (t : String)
    (hrep : invalid_chars.foldl replaceChar t = t) (hlen : t.length ≤ 240) :
    sanitize_filename t = t := by
  unfold sanitize_filename
  rw [hrep, if_neg (by omega)]

/-- C9: sanitizing is idempotent on outputs of at most 240 characters. -/
theorem c9_sanitize_idempotent (name : String)
    (h : (sanitize_filename name).length ≤ 240) :
    sanitize_filename (sanitize_filename name) = sanitize_filename name := by
  apply sanitize_eq_self _ _ h
  apply String.ext
  rw [sanitize_replaced_data]
  have hfix : ∀ c ∈ (sanitize_filename name).data, sanChar c = c := by
    intro c hc
    unfold sanChar
    exact if_neg (sanitize_no_invalid name c hc)
  calc (sanitize_filename name).data.map sanChar
      = (sanitize_filename name).data.map id := List.map_congr_left hfix
    _ = (sanitize_filename name).data := List.map_id _

/-- Witness for C9 at a concrete short name. -/
theorem c9_sanitize_idempotent_witness :
    (sanitize_filename "job1.pdf").length ≤ 240 ∧
    sanitize_filename (sanitize_filename "job1.pdf") = sanitize_filename "job1.pdf" :=
  ⟨by decide, c9_sanitize_idempotent "job1.pdf" (by decide)⟩

/-- C6: every failure path of the extractor (read error, transport or
service error, JSON parse failure) returns the empty record rather than
raising, and a parsed response is returned unchanged; each outcome is
consumed by exactly one call, with no retry. -/
theorem c6_extractor_silent_degrade :
    prompt_claude ApiOutcome.readError = [] ∧
    prompt_claude ApiOutcome.apiError = [] ∧
    prompt_claude (ApiOutcome.response none) = [] ∧
    ∀ r : ExtractionRecord, prompt_claude (ApiOutcome.response (some r)) = r :=
  ⟨rfl, rfl, rfl, fun _ => rfl⟩

/-! ## Lemmas about the batch loop -/

lemma alookup_fsSet_self (fs : FS) (n : String) (b : Bytes) :
    alookup (fsSet fs n b) n = some b := by
  simp [fsSet, alookup]

lemma fileResult_original_name (d : ExtractionRecord) (n : String) :
    (fileResult d n).original_name = n := by
  unfold fileResult
  split <;> rfl

/-- The result record built by the loop body does not depend on the
directory state. -/
lemma processOne_result (d : ExtractionRecord) (file : PDFile) (fs : FS) :
    (processOne d file fs).2.2 = fileResult d file.name := by
  cases hd : d.isEmpty <;>
    simp [processOne, fileResult, hd, filledData, missingOf, newNameOf, statusOf]

/-- The zip entry written by the loop body is the current file's bytes under
its sanitized new name (the rename moves exactly the file just saved). -/
lemma processOne_entry (d : ExtractionRecord) (file : PDFile) (fs : FS) :
    (processOne d file fs).2.1 = fileEntry d file.content := by
  cases hd : d.isEmpty <;>
    simp [processOne, fileEntry, hd, alookup_fsSet_self, newNameOf, filledData, missingOf]

/-- The loop's zip entries and results are the directory-free accumulations. -/
lemma processLoop_eq (oc : Nat → ApiOutcome) :
    ∀ (files : List PDFile) (i : Nat) (fs : FS),
      (processLoop oc i files fs).2.1 = entriesOf (extractOf oc) i files ∧
      (processLoop oc i files fs).2.2 = resultsOf (extractOf oc) i files := by
  intro files
  induction files with
  | nil => intro i fs; simp [processLoop, entriesOf, resultsOf]
  | cons f rest ih =>
    intro i fs
    have h3 := ih (i + 1) (processOne (prompt_claude (oc i)) f fs).1
    simp [processLoop, entriesOf, resultsOf, extractOf,
      processOne_entry, processOne_result, h3.1, h3.2]

/-- Inversion for a successful batch call. -/
lemma process_pdfs_some (files : List PDFile) (oc : Nat → ApiOutcome)
    (out : BatchOutput) (h : process_pdfs files oc = some out) :
    out.zipEntries = entriesOf (extractOf oc) 0 files ∧
    out.results = resultsOf (extractOf oc) 0 files := by
  unfold process_pdfs at h
  split at h
  · exact absurd h (by simp)
  · simp only [Option.some.injEq] at h
    rw [← h]
    exact ⟨(processLoop_eq oc files 0 []).1, (processLoop_eq oc files 0 []).2⟩

lemma resultsOf_length (E : Nat → ExtractionRecord) :
    ∀ (files : List PDFile) (i : Nat), (resultsOf E i files).length = files.length := by
  intro files
  induction files with
  | nil => intro i; rfl
  | cons f rest ih => intro i; simp [resultsOf, ih]

lemma resultsOf_getElem (E : Nat → ExtractionRecord) :
    ∀ (files : List PDFile) (i k : Nat),
      (resultsOf E i files)[k]? = files[k]?.map (fun f => fileResult (E (i + k)) f.name) := by
  intro files
  induction files with
  | nil => intro i k; simp [resultsOf]
  | cons f rest ih =>
    intro i k
    cases k with
    | zero => simp [resultsOf]
    | succ k =>
      have harr : i + 1 + k = i + (k + 1) := by omega
      simp only [resultsOf, List.getElem?_cons_succ, ih (i + 1) k, harr]

/-- C1: a successful batch call returns exactly one result per input file,
in input order (the i-th result carries the i-th file's original name). -/
theorem c1_one_result_per_file (files : List PDFile) (oc : Nat → ApiOutcome)
    (out : BatchOutput) (h : process_pdfs files oc = some out) :
    out.results.length = files.length ∧
    ∀ i : Nat, out.results[i]?.map ResultInfo.original_name = files[i]?.map PDFile.name := by
  obtain ⟨-, hres⟩ := process_pdfs_some files oc out h
  constructor
  · rw [hres, resultsOf_length]
  · intro i
    rw [hres, resultsOf_getElem]
    cases files[i]? <;> simp [fileResult_original_name]

/-- Witness for C1: a one-file batch whose extraction fails still yields one
result, aligned with the input. -/
theorem c1_one_result_per_file_witness :
    (⟨[], [⟨"job1.pdf", [], "", "Error: No data extracted"⟩]⟩ : BatchOutput).results.length =
      ([⟨"job1.pdf", [1]⟩] : List PDFile).length ∧
    ∀ i : Nat,
      (⟨[], [⟨"job1.pdf", [], "", "Error: No data extracted"⟩]⟩ : BatchOutput).results[i]?.map
          ResultInfo.original_name =
        ([⟨"job1.pdf", [1]⟩] : List PDFile)[i]?.map PDFile.name :=
  c1_one_result_per_file [⟨"job1.pdf", [1]⟩] (fun _ => ApiOutcome.response none) _ (by decide)

/-! ## Lemmas about record lookup and update -/

lemma alookup_append {α : Type} (l1 l2 : List (String × α)) (k : String) :
    alookup (l1 ++ l2) k =
      match alookup l1 k with
      | some v => some v
      | none => alookup l2 k := by
  induction l1 with
  | nil => simp [alookup]
  | cons p l1 ih =>
    simp only [List.cons_append, alookup]
    by_cases hp : p.1 = k <;> simp [hp, ih]

lemma alookup_map_update (d : ExtractionRecord) (key val k : String) :
    alookup (d.map (fun p => if p.1 = key then (key, val) else p)) k =
      if k = key then (alookup d key).map (fun _ => val) else alookup d k := by
  induction d with
  | nil => by_cases hk : k = key <;> simp [alookup, hk]
  | cons p d ih =>
    simp only [List.map_cons]
    by_cases hp : p.1 = key
    · rw [if_pos hp]
      by_cases hk : k = key
      · subst hk
        simp [alookup, hp]
      · have hk2 : ¬ key = k := fun h => hk h.symm
        have hpk : ¬ p.1 = k := by rw [hp]; exact hk2
        simp [alookup, hp, hpk, hk, hk2, ih]
    · rw [if_neg hp]
      by_cases hpk : p.1 = k
      · have hk : ¬ k = key := fun h => hp (by rw [hpk, h])
        simp [alookup, hpk, hk]
      · simp [alookup, hp, hpk, ih]

/-- Dict update: the written key reads back the new value, all other keys are
unchanged. -/
lemma alookup_dictSet (d : ExtractionRecord) (key val k : String) :
    alookup (dictSet d key val) k = if k = key then some val else alookup d k := by
  unfold dictSet
  by_cases hp : (alookup d key).isSome
  · rw [if_pos hp, alookup_map_update]
    rcases Option.isSome_iff_exists.1 hp with ⟨v, hv⟩
    by_cases hk : k = key <;> simp [hk, hv]
  · rw [if_neg hp, alookup_append]
    have hnone : alookup d key = none := Option.not_isSome_iff_eq_none.1 hp
    by_cases hk : k = key
    · subst hk; simp [hnone, alookup]
    · have hk2 : ¬ key = k := fun h => hk h.symm
      cases hd : alookup d k <;> simp [alookup, hk, hk2, hd]

lemma alookup_foldl_dictSet (fields : List String) :
    ∀ (d : ExtractionRecord) (k : String),
      alookup (fields.foldl (fun acc f => dictSet acc f "Unknown") d) k =
        if k ∈ fields then some "Unknown" else alookup d k := by
  induction fields with
  | nil => intro d k; simp
  | cons f fs ih =>
    intro d k
    rw [List.foldl_cons, ih]
    by_cases hfs : k ∈ fs
    · simp [hfs, List.mem_cons]
    · by_cases hf : k = f <;> simp [hfs, hf, alookup_dictSet, List.mem_cons]

/-- The substituted record: `"Unknown"` at the missing fields, the original
value elsewhere. -/
lemma alookup_filledData (d : ExtractionRecord) (k : String) :
    alookup (filledData d) k =
      if k ∈ missingOf d then some "Unknown" else alookup d k :=
  alookup_foldl_dictSet (missingOf d) d k

lemma mem_missingOf (d : ExtractionRecord) (f : String) :
    f ∈ missingOf d ↔ f ∈ required_fields ∧ fieldMissing d f = true := by
  unfold missingOf
  exact List.mem_filter

/-- The value a required field contributes to the composed filename. -/
lemma filled_value (d : ExtractionRecord) (f : String) (hf : f ∈ required_fields) :
    (alookup (filledData d) f).getD "" = valOr d f := by
  rw [alookup_filledData]
  by_cases hm : fieldMissing d f = true
  · rw [if_pos ((mem_missingOf d f).2 ⟨hf, hm⟩)]
    simp [valOr, hm]
  · rw [if_neg (fun hmem => hm ((mem_missingOf d f).1 hmem).2)]
    simp only [valOr, hm, if_false]
    simp [hm]

/-- The composed new filename in terms of the per-field placeholder values. -/
lemma newNameOf_valOr (d : ExtractionRecord) :
    newNameOf d = sanitize_filename (valOr d "Part Number" ++ " " ++
      valOr d "Customer" ++ " " ++ valOr d "Description" ++ ".pdf") := by
  unfold newNameOf
  rw [filled_value d "Part Number" (by decide), filled_value d "Customer" (by decide),
    filled_value d "Description" (by decide)]

lemma isEmpty_false_of_alookup (d : ExtractionRecord) (k : String) (v : String)
    (h : alookup d k = some v) : d.isEmpty = false := by
  cases d with
  | nil => simp [alookup] at h
  | cons p d => rfl

/-- When all three required fields are present and non-empty, nothing is
missing. -/
lemma missingOf_nil_of_present (d : ExtractionRecord) (c pn ds : String)
    (hC : alookup d "Customer" = some c) (hc : c ≠ "")
    (hP : alookup d "Part Number" = some pn) (hp : pn ≠ "")
    (hD : alookup d "Description" = some ds) (hd : ds ≠ "") :
    missingOf d = [] := by
  have h1 : (c == "") = false := beq_eq_false_iff_ne.2 hc
  have h2 : (pn == "") = false := beq_eq_false_iff_ne.2 hp
  have h3 : (ds == "") = false := beq_eq_false_iff_ne.2 hd
  simp [missingOf, required_fields, List.filter, fieldMissing, hC, hP, hD, h1, h2, h3]

lemma filledData_of_no_missing (d : ExtractionRecord) (h : missingOf d = []) :
    filledData d = d := by
  unfold filledData
  rw [h]
  rfl

lemma statusOf_success (d : ExtractionRecord) (h : missingOf d = []) :
    statusOf d = "Success" := by
  unfold statusOf
  rw [if_pos (List.isEmpty_iff.2 h)]

lemma statusOf_with_missing (d : ExtractionRecord) (h : missingOf d ≠ []) :
    statusOf d = "Partial success (missing: " ++
      String.intercalate ", " (missingOf d) ++ ")" := by
  unfold statusOf
  rw [if_neg (fun hc => h (List.isEmpty_iff.1 hc))]

/-- A partial-success status string never equals the error status string. -/
lemma missing_status_ne_error (s : String) :
    "Partial success (missing: " ++ s ++ ")" ≠ "Error: No data extracted" := by
  intro h
  have h0 : ("Partial success (missing: " ++ s ++ ")").data.head? =
      ("Error: No data extracted").data.head? := by rw [h]
  have h1 : ("Partial success (missing: " ++ s ++ ")").data.head? = some 'P' := rfl
  have h2 : ("Error: No data extracted").data.head? = some 'E' := rfl
  rw [h1, h2] at h0
  exact absurd (Option.some.injEq _ _ ▸ h0) (by decide)

lemma statusOf_ne_error (d : ExtractionRecord) :
    statusOf d ≠ "Error: No data extracted" := by
  unfold statusOf
  split
  · decide
  · exact missing_status_ne_error _

/-! ## Archive/results correspondence -/

/-- The archive's entry names are exactly the new names of the non-error
results, in order: every Success / Partial-success file has its entry, and
error files contribute none. -/
lemma entries_names (E : Nat → ExtractionRecord) :
    ∀ (files : List PDFile) (i : Nat),
      (entriesOf E i files).map Prod.fst =
        ((resultsOf E i files).filter
          (fun r => r.status != "Error: No data extracted")).map ResultInfo.new_name := by
  intro files
  induction files with
  | nil => intro i; rfl
  | cons f rest ih =>
    intro i
    cases hd : (E i).isEmpty with
    | true =>
      simp [entriesOf, resultsOf, fileEntry, fileResult, hd, ih, List.filter_cons,
        bne_self_eq_false]
    | false =>
      have hne := statusOf_ne_error (E i)
      simp [entriesOf, resultsOf, fileEntry, fileResult, hd, ih, List.filter_cons,
        bne_iff_ne, hne]

/-- C2: in a successful batch, a file whose extraction came back empty ends
with status exactly "Error: No data extracted" and an empty new name, and
the archive's entries correspond exactly (in order, by name) to the results
whose status is not the error status. -/
theorem c2_empty_record_error_excluded (files : List PDFile) (oc : Nat → ApiOutcome)
    (out : BatchOutput) (h : process_pdfs files oc = some out) :
    (∀ i : Nat, i < files.length → (extractOf oc i).isEmpty = true →
      out.results[i]?.map ResultInfo.status = some "Error: No data extracted" ∧
      out.results[i]?.map ResultInfo.new_name = some "") ∧
    out.zipEntries.map Prod.fst =
      (out.results.filter (fun r => r.status != "Error: No data extracted")).map
        ResultInfo.new_name := by
  obtain ⟨hz, hres⟩ := process_pdfs_some files oc out h
  constructor
  · intro i hi hempty
    rw [hres, resultsOf_getElem, List.getElem?_eq_getElem hi]
    simp [fileResult, Nat.zero_add, hempty]
  · rw [hz, hres, entries_names]

def batchC2files : List PDFile := [⟨"a.pdf", [1]⟩, ⟨"b.pdf", [2]⟩]

def batchC2oc : Nat → ApiOutcome := fun j =>
  if j = 0 then ApiOutcome.response none
  else ApiOutcome.response
    (some [("Customer", "Acme"), ("Part Number", "PN-100"), ("Description", "Bracket")])

def batchC2out : BatchOutput :=
  ⟨[("PN-100 Acme Bracket.pdf", [2])],
    [⟨"a.pdf", [], "", "Error: No data extracted"⟩,
     ⟨"b.pdf", [("Customer", "Acme"), ("Part Number", "PN-100"), ("Description", "Bracket")],
       "PN-100 Acme Bracket.pdf", "Success"⟩]⟩

/-- Witness for C2: a two-file batch whose first extraction is empty. -/
theorem c2_empty_record_error_excluded_witness :
    (∀ i : Nat, i < batchC2files.length → (extractOf batchC2oc i).isEmpty = true →
      batchC2out.results[i]?.map ResultInfo.status = some "Error: No data extracted" ∧
      batchC2out.results[i]?.map ResultInfo.new_name = some "") ∧
    batchC2out.zipEntries.map Prod.fst =
      (batchC2out.results.filter (fun r => r.status != "Error: No data extracted")).map
        ResultInfo.new_name :=
  c2_empty_record_error_excluded batchC2files batchC2oc batchC2out (by decide)

/-- Every non-error file's renamed bytes are an entry of the archive. -/
lemma entriesOf_mem (E : Nat → ExtractionRecord) :
    ∀ (files : List PDFile) (i k : Nat) (fi : PDFile),
      files[k]? = some fi → (E (i + k)).isEmpty = false →
      (newNameOf (E (i + k)), fi.content) ∈ entriesOf E i files := by
  intro files
  induction files with
  | nil => intro i k fi hf _; simp at hf
  | cons f rest ih =>
    intro i k fi hf hne
    cases k with
    | zero =>
      have hf0 : f = fi := by simpa using hf
      subst hf0
      simp only [Nat.add_zero] at hne ⊢
      have hentry : fileEntry (E i) f.content = some (newNameOf (E i), f.content) := by
        simp [fileEntry, hne]
      simp only [entriesOf, hentry, Option.toList_some, List.singleton_append]
      exact List.mem_cons_self _ _
    | succ k =>
      have hf' : rest[k]? = some fi := by simpa using hf
      have harr : i + (k + 1) = i + 1 + k := by omega
      rw [harr] at hne ⊢
      have hmem := ih (i + 1) k fi hf' hne
      simp only [entriesOf]
      exact List.mem_append_right _ hmem

/-- C3: when all three fields are extracted non-empty, the new name is the
sanitized `"{Part Number} {Customer} {Description}.pdf"`, the status is
"Success", and the file's bytes are archived under that name. -/
theorem c3_full_fields_success (files : List PDFile) (oc : Nat → ApiOutcome)
    (out : BatchOutput) (h : process_pdfs files oc = some out)
    (i : Nat) (fi : PDFile) (hfi : files[i]? = some fi)
    (c pn ds : String)
    (hC : alookup (extractOf oc i) "Customer" = some c) (hc : c ≠ "")
    (hP : alookup (extractOf oc i) "Part Number" = some pn) (hp : pn ≠ "")
    (hD : alookup (extractOf oc i) "Description" = some ds) (hd : ds ≠ "") :
    out.results[i]?.map ResultInfo.new_name =
      some (sanitize_filename (pn ++ " " ++ c ++ " " ++ ds ++ ".pdf")) ∧
    out.results[i]?.map ResultInfo.status = some "Success" ∧
    (sanitize_filename (pn ++ " " ++ c ++ " " ++ ds ++ ".pdf"), fi.content) ∈
      out.zipEntries := by
  obtain ⟨hz, hres⟩ := process_pdfs_some files oc out h
  have hmiss : missingOf (extractOf oc i) = [] :=
    missingOf_nil_of_present _ c pn ds hC hc hP hp hD hd
  have hne : (extractOf oc i).isEmpty = false := isEmpty_false_of_alookup _ _ c hC
  have hfill : filledData (extractOf oc i) = extractOf oc i :=
    filledData_of_no_missing _ hmiss
  have hnn : newNameOf (extractOf oc i) =
      sanitize_filename (pn ++ " " ++ c ++ " " ++ ds ++ ".pdf") := by
    unfold newNameOf
    rw [hfill, hC, hP, hD]
    rfl
  have hresi : out.results[i]? = some (fileResult (extractOf oc i) fi.name) := by
    rw [hres, resultsOf_getElem, hfi]
    simp [Nat.zero_add]
  refine ⟨?_, ?_, ?_⟩
  · rw [hresi]
    simp [fileResult, hne, hnn]
  · rw [hresi]
    simp [fileResult, hne, statusOf_success _ hmiss]
  · rw [hz, ← hnn]
    have := entriesOf_mem (extractOf oc) files 0 i fi hfi (by simpa using hne)
    simpa using this

def batchC3files : List PDFile := [⟨"job1.pdf", [1]⟩]

def batchC3oc : Nat → ApiOutcome := fun _ =>
  ApiOutcome.response
    (some [("Customer", "Acme"), ("Part Number", "PN-100"), ("Description", "Bracket")])

def batchC3out : BatchOutput :=
  ⟨[("PN-100 Acme Bracket.pdf", [1])],
    [⟨"job1.pdf",
      [("Customer", "Acme"), ("Part Number", "PN-100"), ("Description", "Bracket")],
      "PN-100 Acme Bracket.pdf", "Success"⟩]⟩

/-- Witness for C3: the spec's scenario (`job1.pdf`, Customer "Acme",
Part Number "PN-100", Description "Bracket") gives the new name
"PN-100 Acme Bracket.pdf", status "Success", and an archive entry. -/
theorem c3_full_fields_success_witness :
    (batchC3out.results[0]?.map ResultInfo.new_name =
      some (sanitize_filename ("PN-100" ++ " " ++ "Acme" ++ " " ++ "Bracket" ++ ".pdf")) ∧
    batchC3out.results[0]?.map ResultInfo.status = some "Success" ∧
    (sanitize_filename ("PN-100" ++ " " ++ "Acme" ++ " " ++ "Bracket" ++ ".pdf"),
      ([1] : Bytes)) ∈ batchC3out.zipEntries) ∧
    sanitize_filename ("PN-100" ++ " " ++ "Acme" ++ " " ++ "Bracket" ++ ".pdf") =
      "PN-100 Acme Bracket.pdf" :=
  ⟨c3_full_fields_success batchC3files batchC3oc batchC3out (by decide)
      0 ⟨"job1.pdf", [1]⟩ (by decide) "Acme" "PN-100" "Bracket"
      (by decide) (by decide) (by decide) (by decide) (by decide) (by decide),
    by decide⟩

/-- C4: a non-empty record with missing or empty required fields gets each
such field replaced by the literal "Unknown" in the composed filename, and
the status "Partial success (missing: <comma-joined field names>)". -/
theorem c4_missing_fields_unknown (files : List PDFile) (oc : Nat → ApiOutcome)
    (out : BatchOutput) (h : process_pdfs files oc = some out)
    (i : Nat) (hi : i < files.length)
    (hne : (extractOf oc i).isEmpty = false)
    (hmiss : missingOf (extractOf oc i) ≠ []) :
    out.results[i]?.map ResultInfo.new_name =
      some (sanitize_filename (valOr (extractOf oc i) "Part Number" ++ " " ++
        valOr (extractOf oc i) "Customer" ++ " " ++
        valOr (extractOf oc i) "Description" ++ ".pdf")) ∧
    out.results[i]?.map ResultInfo.status =
      some ("Partial success (missing: " ++
        String.intercalate ", " (missingOf (extractOf oc i)) ++ ")") := by
  obtain ⟨-, hres⟩ := process_pdfs_some files oc out h
  have hresi : out.results[i]? = some (fileResult (extractOf oc i) files[i].name) := by
    rw [hres, resultsOf_getElem, List.getElem?_eq_getElem hi]
    simp [Nat.zero_add]
  rw [hresi]
  constructor
  · simp [fileResult, hne, newNameOf_valOr]
  · simp [fileResult, hne, statusOf_with_missing _ hmiss]

def batchC4files : List PDFile := [⟨"job1.pdf", [1]⟩]

def batchC4oc : Nat → ApiOutcome := fun _ =>
  ApiOutcome.response
    (some [("Customer", "Acme"), ("Part Number", "PN-1"), ("Description", "")])

def batchC4out : BatchOutput :=
  ⟨[("PN-1 Acme Unknown.pdf", [1])],
    [⟨"job1.pdf",
      [("Customer", "Acme"), ("Part Number", "PN-1"), ("Description", "Unknown")],
      "PN-1 Acme Unknown.pdf", "Partial success (missing: Description)"⟩]⟩

/-- Witness for C4: exactly the Description field is empty, so it becomes
"Unknown" in the filename and the status is
"Partial success (missing: Description)". -/
theorem c4_missing_fields_unknown_witness :
    (batchC4out.results[0]?.map ResultInfo.new_name =
      some (sanitize_filename (valOr (extractOf batchC4oc 0) "Part Number" ++ " " ++
        valOr (extractOf batchC4oc 0) "Customer" ++ " " ++
        valOr (extractOf batchC4oc 0) "Description" ++ ".pdf")) ∧
    batchC4out.results[0]?.map ResultInfo.status =
      some ("Partial success (missing: " ++
        String.intercalate ", " (missingOf (extractOf batchC4oc 0)) ++ ")")) ∧
    sanitize_filename (valOr (extractOf batchC4oc 0) "Part Number" ++ " " ++
      valOr (extractOf batchC4oc 0) "Customer" ++ " " ++
      valOr (extractOf batchC4oc 0) "Description" ++ ".pdf") = "PN-1 Acme Unknown.pdf" ∧
    "Partial success (missing: " ++
      String.intercalate ", " (missingOf (extractOf batchC4oc 0)) ++ ")" =
      "Partial success (missing: Description)" :=
  ⟨c4_missing_fields_unknown batchC4files batchC4oc batchC4out (by decide)
      0 (by decide) (by decide) (by decide),
    by decide, by decide⟩

/-- C10: the missing-field names in a partial-success status are the filter
of the fixed canonical list Customer, Part Number, Description — a sublist
of that canonical order — and depend only on which fields are missing, not
on the record's key order. -/
theorem c10_missing_order_canonical (files : List PDFile) (oc : Nat → ApiOutcome)
    (out : BatchOutput) (h : process_pdfs files oc = some out)
    (i : Nat) (hi : i < files.length)
    (hne : (extractOf oc i).isEmpty = false)
    (hmiss : missingOf (extractOf oc i) ≠ []) :
    out.results[i]?.map ResultInfo.status =
      some ("Partial success (missing: " ++
        String.intercalate ", "
          (required_fields.filter (fun f => fieldMissing (extractOf oc i) f)) ++ ")") ∧
    (missingOf (extractOf oc i)).Sublist required_fields ∧
    (∀ d : ExtractionRecord,
      (∀ f, fieldMissing d f = fieldMissing (extractOf oc i) f) →
      missingOf d = missingOf (extractOf oc i)) := by
  refine ⟨?_, List.filter_sublist _, fun d hfd => List.filter_congr (fun f _ => hfd f)⟩
  obtain ⟨-, hres⟩ := process_pdfs_some files oc out h
  have hresi : out.results[i]? = some (fileResult (extractOf oc i) files[i].name) := by
    rw [hres, resultsOf_getElem, List.getElem?_eq_getElem hi]
    simp [Nat.zero_add]
  rw [hresi]
  have hpart := statusOf_with_missing _ hmiss
  simp only [missingOf] at hpart
  simp [fileResult, hne, hpart, missingOf]

def batchC10files : List PDFile := [⟨"x.pdf", [1]⟩]

/-- A response listing Description before Customer and omitting Part Number:
the status must still name the missing fields in canonical order. -/
def batchC10oc : Nat → ApiOutcome := fun _ =>
  ApiOutcome.response (some [("Description", ""), ("Customer", "Acme")])

def batchC10out : BatchOutput :=
  ⟨[("Unknown Acme Unknown.pdf", [1])],
    [⟨"x.pdf",
      [("Description", "Unknown"), ("Customer", "Acme"), ("Part Number", "Unknown")],
      "Unknown Acme Unknown.pdf", "Partial success (missing: Part Number, Description)"⟩]⟩

/-- Witness for C10: with response key order Description, Customer, the
missing fields are still reported as "Part Number, Description". -/
theorem c10_missing_order_canonical_witness :
    (batchC10out.results[0]?.map ResultInfo.status =
      some ("Partial success (missing: " ++
        String.intercalate ", "
          (required_fields.filter (fun f => fieldMissing (extractOf batchC10oc 0) f)) ++ ")") ∧
    (missingOf (extractOf batchC10oc 0)).Sublist required_fields ∧
    (∀ d : ExtractionRecord,
      (∀ f, fieldMissing d f = fieldMissing (extractOf batchC10oc 0) f) →
      missingOf d = missingOf (extractOf batchC10oc 0))) ∧
    String.intercalate ", "
      (required_fields.filter (fun f => fieldMissing (extractOf batchC10oc 0) f)) =
      "Part Number, Description" :=
  ⟨c10_missing_order_canonical batchC10files batchC10oc batchC10out (by decide)
      0 (by decide) (by decide) (by decide),
    by decide⟩

/-! ## C7: the stored record is the mutated one -/

/-- Refutation input for C7: the extractor returns an empty Description. -/
theorem c7_counterexample :
    (process_pdfs [⟨"job1.pdf", [1]⟩]
        (fun _ => ApiOutcome.response
          (some [("Customer", "Acme"), ("Part Number", "PN-1"), ("Description", "")]))).map
        (fun o => (o.results.map ResultInfo.extracted_data,
          (results_data o.results).map DisplayRow.description)) =
      some ([[("Customer", "Acme"), ("Part Number", "PN-1"), ("Description", "Unknown")]],
        ["Unknown"]) ∧
    prompt_claude (ApiOutcome.response
        (some [("Customer", "Acme"), ("Part Number", "PN-1"), ("Description", "")])) ≠
      [("Customer", "Acme"), ("Part Number", "PN-1"), ("Description", "Unknown")] :=
  ⟨by decide, by decide⟩

/-- C7 (amended): the record stored in a file's ProcessingResult is the
extractor's record after the loop's in-place "Unknown" substitution: it
equals the returned record exactly when the record is empty or nothing is
missing; when the record is non-empty, every missing or empty required field
is stored (and hence displayed) as "Unknown"; and the display table is the
row image of the stored results. -/
theorem c7_stored_record_mutated (files : List PDFile) (oc : Nat → ApiOutcome)
    (out : BatchOutput) (h : process_pdfs files oc = some out)
    (i : Nat) (hi : i < files.length) :
    ((extractOf oc i).isEmpty = true →
      out.results[i]?.map ResultInfo.extracted_data = some (extractOf oc i)) ∧
    (missingOf (extractOf oc i) = [] →
      out.results[i]?.map ResultInfo.extracted_data = some (extractOf oc i)) ∧
    ((extractOf oc i).isEmpty = false →
      ∀ f ∈ required_fields, fieldMissing (extractOf oc i) f = true →
        out.results[i]?.map (fun r => (alookup r.extracted_data f).getD "") =
          some "Unknown") ∧
    (results_data out.results)[i]? = out.results[i]?.map mkRow := by
  obtain ⟨-, hres⟩ := process_pdfs_some files oc out h
  have hresi : out.results[i]? = some (fileResult (extractOf oc i) files[i].name) := by
    rw [hres, resultsOf_getElem, List.getElem?_eq_getElem hi]
    simp [Nat.zero_add]
  refine ⟨?_, ?_, ?_, ?_⟩
  · intro hemp
    rw [hresi]
    simp [fileResult, hemp]
  · intro hm
    rw [hresi]
    cases hemp : (extractOf oc i).isEmpty with
    | true => simp [fileResult, hemp]
    | false => simp [fileResult, hemp, filledData_of_no_missing _ hm]
  · intro hne f hfreq hfmiss
    rw [hresi]
    have hmem : f ∈ missingOf (extractOf oc i) := (mem_missingOf _ f).2 ⟨hfreq, hfmiss⟩
    simp [fileResult, hne, alookup_filledData, hmem]
  · simp [results_data, List.getElem?_map]

def batchC7files : List PDFile := [⟨"job1.pdf", [1]⟩]

def batchC7oc : Nat → ApiOutcome := fun _ =>
  ApiOutcome.response
    (some [("Customer", "Acme"), ("Part Number", "PN-1"), ("Description", "")])

def batchC7out : BatchOutput :=
  ⟨[("PN-1 Acme Unknown.pdf", [1])],
    [⟨"job1.pdf",
      [("Customer", "Acme"), ("Part Number", "PN-1"), ("Description", "Unknown")],
      "PN-1 Acme Unknown.pdf", "Partial success (missing: Description)"⟩]⟩

/-- Witness for the amended C7 on a record with empty Description. -/
theorem c7_stored_record_mutated_witness :
    ((extractOf batchC7oc 0).isEmpty = true →
      batchC7out.results[0]?.map ResultInfo.extracted_data = some (extractOf batchC7oc 0)) ∧
    (missingOf (extractOf batchC7oc 0) = [] →
      batchC7out.results[0]?.map ResultInfo.extracted_data = some (extractOf batchC7oc 0)) ∧
    ((extractOf batchC7oc 0).isEmpty = false →
      ∀ f ∈ required_fields, fieldMissing (extractOf batchC7oc 0) f = true →
        batchC7out.results[0]?.map (fun r => (alookup r.extracted_data f).getD "") =
          some "Unknown") ∧
    (results_data batchC7out.results)[0]? = batchC7out.results[0]?.map mkRow :=
  c7_stored_record_mutated batchC7files batchC7oc batchC7out (by decide) 0 (by decide)

/-! ## C8: filename collisions are not deduplicated -/

lemma entriesOf_append (E : Nat → ExtractionRecord) :
    ∀ (l1 l2 : List PDFile) (i : Nat),
      entriesOf E i (l1 ++ l2) = entriesOf E i l1 ++ entriesOf E (i + l1.length) l2 := by
  intro l1
  induction l1 with
  | nil => intro l2 i; simp [entriesOf]
  | cons f rest ih =>
    intro l2 i
    simp only [List.cons_append, entriesOf, List.length_cons]
    rw [show rest.append l2 = rest ++ l2 from rfl, ih l2 (i + 1)]
    have harith : i + 1 + rest.length = i + (rest.length + 1) := by omega
    rw [harith, List.append_assoc]

/-- When no file in the suffix produces an entry named `n`, the suffix
contributes nothing to the archive's `n`-entries. -/
lemma entriesOf_filter_none (E : Nat → ExtractionRecord) (n : String) :
    ∀ (files : List PDFile) (i : Nat),
      (∀ k, k < files.length → (E (i + k)).isEmpty = false →
        newNameOf (E (i + k)) ≠ n) →
      (entriesOf E i files).filter (fun p => p.1 == n) = [] := by
  intro files
  induction files with
  | nil => intro i _; rfl
  | cons f rest ih =>
    intro i hno
    have hrest : ∀ k, k < rest.length → (E (i + 1 + k)).isEmpty = false →
        newNameOf (E (i + 1 + k)) ≠ n := by
      intro k hk
      have harith : i + 1 + k = i + (k + 1) := by omega
      rw [harith]
      exact hno (k + 1) (by simp; omega)
    cases hd : (E i).isEmpty with
    | true =>
      have hnone : fileEntry (E i) f.content = none := by simp [fileEntry, hd]
      show ((fileEntry (E i) f.content).toList ++ entriesOf E (i + 1) rest).filter
          (fun p => p.1 == n) = []
      rw [hnone, Option.toList_none, List.nil_append]
      exact ih (i + 1) hrest
    | false =>
      have hname : newNameOf (E i) ≠ n := by
        have := hno 0 (by simp) (by simpa using hd)
        simpa using this
      have hsome : fileEntry (E i) f.content = some (newNameOf (E i), f.content) := by
        simp [fileEntry, hd]
      show ((fileEntry (E i) f.content).toList ++ entriesOf E (i + 1) rest).filter
          (fun p => p.1 == n) = []
      rw [hsome, Option.toList_some, List.singleton_append]
      generalize hg : newNameOf (E i) = nn
      rw [hg] at hname
      rw [List.filter_cons,
        show ((nn, f.content).1 == n) = false from beq_eq_false_iff_ne.2 hname,
        if_neg Bool.false_ne_true]
      exact ih (i + 1) hrest

/-- C8: when an earlier and a later file of a batch derive the same sanitized
new name (and no later file reuses it), both files' bytes are written to the
archive under that name — no deduplication — and reading that member from
the sealed archive yields the later file's bytes, which shadow the earlier
file's. -/
theorem c8_collision_overwrites (files : List PDFile) (oc : Nat → ApiOutcome)
    (out : BatchOutput) (h : process_pdfs files oc = some out)
    (i j : Nat) (fi fj : PDFile) (hij : i < j)
    (hfi : files[i]? = some fi) (hfj : files[j]? = some fj)
    (hnei : (extractOf oc i).isEmpty = false)
    (hnej : (extractOf oc j).isEmpty = false)
    (hname : newNameOf (extractOf oc i) = newNameOf (extractOf oc j))
    (hlast : ∀ k, j < k → k < files.length → (extractOf oc k).isEmpty = false →
      newNameOf (extractOf oc k) ≠ newNameOf (extractOf oc j)) :
    (newNameOf (extractOf oc j), fi.content) ∈ out.zipEntries ∧
    (newNameOf (extractOf oc j), fj.content) ∈ out.zipEntries ∧
    archiveRead out.zipEntries (newNameOf (extractOf oc j)) = some fj.content := by
  obtain ⟨hz, -⟩ := process_pdfs_some files oc out h
  have hj : j < files.length := (List.getElem?_eq_some.1 hfj).1
  refine ⟨?_, ?_, ?_⟩
  · have hm := entriesOf_mem (extractOf oc) files 0 i fi hfi (by simpa using hnei)
    rw [hz]
    simp only [Nat.zero_add] at hm
    rw [← hname]
    exact hm
  · have hm := entriesOf_mem (extractOf oc) files 0 j fj hfj (by simpa using hnej)
    rw [hz]
    simp only [Nat.zero_add] at hm
    exact hm
  · rw [hz]
    have hsplit : entriesOf (extractOf oc) 0 files =
        entriesOf (extractOf oc) 0 (files.take (j + 1)) ++
          entriesOf (extractOf oc) (0 + (files.take (j + 1)).length)
            (files.drop (j + 1)) := by
      conv_lhs => rw [← List.take_append_drop (j + 1) files]
      exact entriesOf_append (extractOf oc) _ _ 0
    have hlen : (files.take (j + 1)).length = j + 1 := by
      rw [List.length_take]
      exact Nat.min_eq_left (by omega)
    unfold archiveRead
    rw [hsplit, List.filter_append]
    have hdrop_nil : (entriesOf (extractOf oc) (0 + (files.take (j + 1)).length)
        (files.drop (j + 1))).filter
          (fun p => p.1 == newNameOf (extractOf oc j)) = [] := by
      rw [hlen]
      apply entriesOf_filter_none
      intro k hk
      have harith : 0 + (j + 1) + k = j + 1 + k := by omega
      rw [harith]
      rw [List.length_drop] at hk
      exact hlast (j + 1 + k) (by omega) (by omega)
    rw [hdrop_nil, List.append_nil]
    have htake : files.take (j + 1) = files.take j ++ [fj] := by
      rw [List.take_succ, hfj]
      rfl
    have hlenj : (files.take j).length = j := by
      rw [List.length_take]
      exact Nat.min_eq_left (by omega)
    rw [htake, entriesOf_append, hlenj]
    have hsome : fileEntry (extractOf oc j) fj.content =
        some (newNameOf (extractOf oc j), fj.content) := by
      unfold fileEntry
      rw [hnej, if_neg Bool.false_ne_true]
    have hj_entry : entriesOf (extractOf oc) (0 + j) [fj] =
        [(newNameOf (extractOf oc j), fj.content)] := by
      show (fileEntry (extractOf oc (0 + j)) fj.content).toList ++
          entriesOf (extractOf oc) (0 + j + 1) [] = _
      rw [Nat.zero_add, hsome, Option.toList_some]
      rfl
    rw [hj_entry, List.filter_append]
    generalize newNameOf (extractOf oc j) = nn
    rw [List.filter_cons,
      show ((nn, fj.content).1 == nn) = true from beq_self_eq_true _,
      if_pos rfl, List.filter_nil, List.getLast?_concat]
    rfl

def batchC8files : List PDFile := [⟨"a.pdf", [1]⟩, ⟨"b.pdf", [2]⟩]

/-- Both files extract identical fields, so both derive the same new name. -/
def batchC8oc : Nat → ApiOutcome := fun _ =>
  ApiOutcome.response
    (some [("Customer", "Acme"), ("Part Number", "PN-100"), ("Description", "Bracket")])

def batchC8out : BatchOutput :=
  ⟨[("PN-100 Acme Bracket.pdf", [1]), ("PN-100 Acme Bracket.pdf", [2])],
    [⟨"a.pdf",
      [("Customer", "Acme"), ("Part Number", "PN-100"), ("Description", "Bracket")],
      "PN-100 Acme Bracket.pdf", "Success"⟩,
     ⟨"b.pdf",
      [("Customer", "Acme"), ("Part Number", "PN-100"), ("Description", "Bracket")],
      "PN-100 Acme Bracket.pdf", "Success"⟩]⟩

/-- Witness for C8: two files colliding on "PN-100 Acme Bracket.pdf"; both
entries are in the archive and reading the member returns the second file's
bytes. -/
theorem c8_collision_overwrites_witness :
    ((newNameOf (extractOf batchC8oc 1), ([1] : Bytes)) ∈ batchC8out.zipEntries ∧
    (newNameOf (extractOf batchC8oc 1), ([2] : Bytes)) ∈ batchC8out.zipEntries ∧
    archiveRead batchC8out.zipEntries (newNameOf (extractOf batchC8oc 1)) =
      some ([2] : Bytes)) ∧
    newNameOf (extractOf batchC8oc 1) = "PN-100 Acme Bracket.pdf" :=
  ⟨c8_collision_overwrites batchC8files batchC8oc batchC8out (by decide)
      0 1 ⟨"a.pdf", [1]⟩ ⟨"b.pdf", [2]⟩ (by decide) (by decide) (by decide)
      (by decide) (by decide) (by decide)
      (by
        intro k hk1 hk2
        have hlen2 : batchC8files.length = 2 := rfl
        rw [hlen2] at hk2
        omega),
    by decide⟩
